import Mathlib

/-!
Verification development for the makrukops position engine.

The TypeScript sources are embedded shallowly: JavaScript 32-bit integer
operations become `Nat` operations on values below `2 ^ 32` (the unsigned
reinterpretation of JS int32 values), `SquareSet` becomes a pair of such
`Nat`s, and the mutating `Board`/`Position` methods become pure functions
returning updated values.  Where a JS expression passes through `| 0` or an
unsigned coercion, the embedding takes the value modulo `2 ^ 32`.
-/

/-- Population count of the low 32 bits, following `popcnt32` in
`src/squareSet.ts` bit for bit.  The inner subtraction never underflows, and
the top byte of the final product is at most 60, so JS's signed `>> 24`
agrees with the unsigned shift used here. -/
def popcnt32 (n : Nat) : Nat :=
  let n1 := n - ((n >>> 1) &&& 0x55555555)
  let n2 := (n1 &&& 0x33333333) + ((n1 >>> 2) &&& 0x33333333)
  let n3 := (n2 + (n2 >>> 4)) &&& 0x0f0f0f0f
  ((n3 * 0x01010101) % 4294967296) >>> 24

/-- Byte swap of a 32-bit value, following `bswap32` in `src/squareSet.ts`.
All intermediate values stay below `2 ^ 32`, so no masking is needed. -/
def bswap32 (n : Nat) : Nat :=
  let n1 := ((n >>> 8) &&& 0x00ff00ff) ||| ((n &&& 0x00ff00ff) <<< 8)
  ((n1 >>> 16) &&& 0xffff) ||| ((n1 &&& 0xffff) <<< 16)

/-- Bit reversal of a 32-bit value, following `rbit32` in `src/squareSet.ts`. -/
def rbit32 (n : Nat) : Nat :=
  let n1 := ((n >>> 1) &&& 0x55555555) ||| ((n &&& 0x55555555) <<< 1)
  let n2 := ((n1 >>> 2) &&& 0x33333333) ||| ((n1 &&& 0x33333333) <<< 2)
  let n3 := ((n2 >>> 4) &&& 0x0f0f0f0f) ||| ((n2 &&& 0x0f0f0f0f) <<< 4)
  let n4 := ((n3 >>> 8) &&& 0x00ff00ff) ||| ((n3 &&& 0x00ff00ff) <<< 8)
  ((n4 >>> 16) &&& 0x0000ffff) ||| ((n4 &&& 0x0000ffff) <<< 16)

/-- Embeds `Math.clz32`: count of leading zeros of a 32-bit value, scanning the
bits from position 31 downwards. -/
def clz32 (n : Nat) : Nat :=
  (((List.range 32).findIdx? fun i => n.testBit (31 - i))).getD 32

/-- JS bitwise complement `~x` on an int32, in the unsigned reading: xor with
the all-ones 32-bit mask. -/
def not32 (x : Nat) : Nat :=
  x ^^^ 0xffffffff

/-- An immutable set of the 64 board squares, split into two 32-bit halves
exactly like `SquareSet` in `src/squareSet.ts`: bit `i` of `lo` is square
`i`, bit `i` of `hi` is square `32 + i`. -/
structure SquareSet where
  lo : Nat
  hi : Nat
deriving DecidableEq

/-- Both halves fit in 32 bits; every set built by the operations below from
well-formed inputs stays well-formed. -/
def SquareSet.Wf (s : SquareSet) : Prop :=
  s.lo < 4294967296 ∧ s.hi < 4294967296

instance (s : SquareSet) : Decidable s.Wf := by
  unfold SquareSet.Wf
  infer_instance

/-- The 64-bit unsigned value represented by the two halves. -/
def SquareSet.val (s : SquareSet) : Nat :=
  s.lo + 4294967296 * s.hi

def SquareSet.fromSquare (square : Nat) : SquareSet :=
  if 32 ≤ square then ⟨0, 1 <<< (square - 32)⟩ else ⟨1 <<< square, 0⟩

def SquareSet.empty : SquareSet := ⟨0, 0⟩

def SquareSet.full : SquareSet := ⟨0xffffffff, 0xffffffff⟩

def SquareSet.backranks : SquareSet := ⟨0xff, 0xff000000⟩

def SquareSet.lightSquares : SquareSet := ⟨0x55aa55aa, 0x55aa55aa⟩

def SquareSet.darkSquares : SquareSet := ⟨0xaa55aa55, 0xaa55aa55⟩

def SquareSet.xor (s other : SquareSet) : SquareSet :=
  ⟨s.lo ^^^ other.lo, s.hi ^^^ other.hi⟩

def SquareSet.union (s other : SquareSet) : SquareSet :=
  ⟨s.lo ||| other.lo, s.hi ||| other.hi⟩

def SquareSet.intersect (s other : SquareSet) : SquareSet :=
  ⟨s.lo &&& other.lo, s.hi &&& other.hi⟩

def SquareSet.diff (s other : SquareSet) : SquareSet :=
  ⟨s.lo &&& not32 other.lo, s.hi &&& not32 other.hi⟩

/-- Left shift of the 64-bit value, following `shl64`; the JS `<<` results
pass through `| 0`, hence the `% 2 ^ 32`. -/
def SquareSet.shl64 (s : SquareSet) (shift : Nat) : SquareSet :=
  if 64 ≤ shift then SquareSet.empty
  else if 32 ≤ shift then ⟨0, (s.lo <<< (shift - 32)) % 4294967296⟩
  else if 0 < shift then
    ⟨(s.lo <<< shift) % 4294967296,
      ((s.hi <<< shift) % 4294967296) ^^^ (s.lo >>> (32 - shift))⟩
  else s

def SquareSet.fromRank (rank : Nat) : SquareSet :=
  SquareSet.shl64 ⟨0xff, 0⟩ (8 * rank)

def SquareSet.fromFile (file : Nat) : SquareSet :=
  ⟨0x01010101 <<< file, 0x01010101 <<< file⟩

def SquareSet.bswap64 (s : SquareSet) : SquareSet :=
  ⟨bswap32 s.hi, bswap32 s.lo⟩

def SquareSet.rbit64 (s : SquareSet) : SquareSet :=
  ⟨rbit32 s.hi, rbit32 s.lo⟩

def SquareSet.equals (s other : SquareSet) : Bool :=
  s.lo == other.lo && s.hi == other.hi

def SquareSet.size (s : SquareSet) : Nat :=
  popcnt32 s.lo + popcnt32 s.hi

def SquareSet.isEmpty (s : SquareSet) : Bool :=
  s.lo == 0 && s.hi == 0

def SquareSet.nonEmpty (s : SquareSet) : Bool :=
  s.lo != 0 || s.hi != 0

def SquareSet.has (s : SquareSet) (square : Nat) : Bool :=
  if 32 ≤ square then (s.hi &&& (1 <<< (square - 32))) != 0
  else (s.lo &&& (1 <<< square)) != 0

def SquareSet.with' (s : SquareSet) (square : Nat) : SquareSet :=
  if 32 ≤ square then ⟨s.lo, s.hi ||| (1 <<< (square - 32))⟩
  else ⟨s.lo ||| (1 <<< square), s.hi⟩

def SquareSet.without (s : SquareSet) (square : Nat) : SquareSet :=
  if 32 ≤ square then ⟨s.lo, s.hi &&& not32 (1 <<< (square - 32))⟩
  else ⟨s.lo &&& not32 (1 <<< square), s.hi⟩

def SquareSet.intersects (s other : SquareSet) : Bool :=
  (s.intersect other).nonEmpty

def SquareSet.isDisjoint (s other : SquareSet) : Bool :=
  (s.intersect other).isEmpty

/-- Highest member, following `last`: `63 - clz32 hi` when the high half is
occupied, else `31 - clz32 lo`. -/
def SquareSet.last (s : SquareSet) : Option Nat :=
  if s.hi ≠ 0 then some (63 - clz32 s.hi)
  else if s.lo ≠ 0 then some (31 - clz32 s.lo)
  else none

/-- Embeds `moreThanOne`; when a half is zero, JS computes `0 & -1 = 0` and Nat
computes `0 &&& (0 - 1) = 0`, which agree. -/
def SquareSet.moreThanOne (s : SquareSet) : Bool :=
  (s.hi != 0 && s.lo != 0) || (s.lo &&& (s.lo - 1)) != 0 || (s.hi &&& (s.hi - 1)) != 0

def SquareSet.singleSquare (s : SquareSet) : Option Nat :=
  if s.moreThanOne then none else s.last

/-- Wrapping 64-bit subtraction `minus64` from `src/squareSet.ts`.  The JS
low-half difference `this.lo - other.lo` is consumed only by `&` and `>>>`,
which apply ToUint32; for halves below `2 ^ 32` that coercion is
`(lo + 2 ^ 32 - other.lo) % 2 ^ 32`.  The high half passes through `| 0` in
the constructor, giving the final `% 2 ^ 32`. -/
def SquareSet.minus64 (s other : SquareSet) : SquareSet :=
  let lo := (s.lo + 4294967296 - other.lo) % 4294967296
  let c := ((lo &&& other.lo &&& 1) + (other.lo >>> 1) + (lo >>> 1)) >>> 31
  ⟨lo, (s.hi + 4294967296 - (other.hi + c)) % 4294967296⟩

/-- Modelled from the spec: `SquareSet.withoutFirst` is called by `between`
in `src/attacks.ts` but is absent from `src/squareSet.ts`.  Following the
spec's description of `between` ("with the first member removed", §4.2), it
clears the lowest set bit: the low half if occupied, else the high half. -/
def SquareSet.withoutFirst (s : SquareSet) : SquareSet :=
  if s.lo ≠ 0 then ⟨s.lo &&& (s.lo - 1), s.hi⟩
  else ⟨s.lo, s.hi &&& (s.hi - 1)⟩

/-- Ascending iteration over members, as produced by the `Symbol.iterator`
of `SquareSet` (low-half bits in increasing order, then high-half bits). -/
def SquareSet.toList (s : SquareSet) : List Nat :=
  (List.range 64).filter fun sq => s.has sq

inductive Color where
  | white
  | black
deriving DecidableEq

def COLORS : List Color := [.white, .black]

inductive Role where
  | pawn
  | promotedpawn
  | knight
  | bishop
  | rook
  | queen
  | king
deriving DecidableEq

def ROLES : List Role :=
  [.pawn, .promotedpawn, .knight, .bishop, .rook, .queen, .king]

/-- A piece as the board observes it.  `src/board.ts` stores only color and
role bit-sets, so the optional `promoted` display flag of `src/types.ts` is
never persisted and is omitted from the embedding. -/
structure Piece where
  color : Color
  role : Role
deriving DecidableEq

structure Move where
  from' : Nat
  to' : Nat
  promotion : Option Role
deriving DecidableEq

def opposite (color : Color) : Color :=
  match color with
  | .white => .black
  | .black => .white

def squareFile (square : Nat) : Nat := square % 8

def squareRank (square : Nat) : Nat := square / 8

/-- Embeds `computeRange` from `src/attacks.ts`: bounded-delta generation with the
file-distance-2 wraparound guard.  JS short-circuiting evaluates the file of
`sq` only inside `0 ≤ sq < 64`, where the `Int` file agrees with the
embedding. -/
def computeRange (square : Nat) (deltas : List Int) : SquareSet :=
  deltas.foldl
    (fun range delta =>
      let sq : Int := (square : Int) + delta
      if 0 ≤ sq ∧ sq < 64 ∧ ((squareFile square : Int) - ((sq % 8 : Int))).natAbs ≤ 2 then
        range.with' sq.toNat
      else range)
    SquareSet.empty

/-- Embeds `KING_ATTACKS`; the source tabulates this over all 64 squares at startup,
which is pointwise equal to applying the generator. -/
def kingAttacks (square : Nat) : SquareSet :=
  computeRange square [-9, -8, -7, -1, 1, 7, 8, 9]

/-- Embeds `QUEEN_ATTACKS`: the makruk queen and the promoted pawn step one square
diagonally. -/
def queenAttacks (square : Nat) : SquareSet :=
  computeRange square [-9, -7, 7, 9]

def knightAttacks (square : Nat) : SquareSet :=
  computeRange square [-17, -15, -10, -6, 6, 10, 15, 17]

def bishopAttacks (color : Color) (square : Nat) : SquareSet :=
  match color with
  | .white => computeRange square [-7, -9, 7, 8, 9]
  | .black => computeRange square [-7, -8, -9, 7, 9]

def pawnAttacks (color : Color) (square : Nat) : SquareSet :=
  match color with
  | .white => computeRange square [7, 9]
  | .black => computeRange square [-7, -9]

def FILE_RANGE (square : Nat) : SquareSet :=
  (SquareSet.fromFile (squareFile square)).without square

def RANK_RANGE (square : Nat) : SquareSet :=
  (SquareSet.fromRank (squareRank square)).without square

def hyperbola (bit range occupied : SquareSet) : SquareSet :=
  let forward0 := occupied.intersect range
  let reverse0 := forward0.bswap64
  let forward1 := forward0.minus64 bit
  let reverse1 := reverse0.minus64 bit.bswap64
  (forward1.xor reverse1.bswap64).intersect range

def fileAttacks (square : Nat) (occupied : SquareSet) : SquareSet :=
  hyperbola (SquareSet.fromSquare square) (FILE_RANGE square) occupied

def rankAttacks (square : Nat) (occupied : SquareSet) : SquareSet :=
  let range := RANK_RANGE square
  let forward0 := occupied.intersect range
  let reverse0 := forward0.rbit64
  let forward1 := forward0.minus64 (SquareSet.fromSquare square)
  let reverse1 := reverse0.minus64 (SquareSet.fromSquare (63 - square))
  (forward1.xor reverse1.rbit64).intersect range

def rookAttacks (square : Nat) (occupied : SquareSet) : SquareSet :=
  (fileAttacks square occupied).xor (rankAttacks square occupied)

/-- Attack dispatch by role, `attacks` in `src/attacks.ts`. -/
def attacks (piece : Piece) (square : Nat) (occupied : SquareSet) : SquareSet :=
  match piece.role with
  | .pawn => pawnAttacks piece.color square
  | .knight => knightAttacks square
  | .bishop => bishopAttacks piece.color square
  | .rook => rookAttacks square occupied
  | .queen => queenAttacks square
  | .promotedpawn => queenAttacks square
  | .king => kingAttacks square

def ray (a b : Nat) : SquareSet :=
  let other := SquareSet.fromSquare b
  if (RANK_RANGE a).intersects other then (RANK_RANGE a).with' a
  else if (FILE_RANGE a).intersects other then (FILE_RANGE a).with' a
  else SquareSet.empty

def between (a b : Nat) : SquareSet :=
  (((ray a b).intersect ((SquareSet.full.shl64 a).xor (SquareSet.full.shl64 b)))).withoutFirst

/-- Piece placement from `src/board.ts`: one occupancy set plus one set per
color and per role. -/
structure Board where
  occupied : SquareSet
  white : SquareSet
  black : SquareSet
  pawn : SquareSet
  promotedpawn : SquareSet
  knight : SquareSet
  bishop : SquareSet
  rook : SquareSet
  queen : SquareSet
  king : SquareSet
deriving DecidableEq

/-- Dynamic indexing `board[color]`. -/
def Board.colorSet (b : Board) (color : Color) : SquareSet :=
  match color with
  | .white => b.white
  | .black => b.black

/-- Dynamic indexing `board[role]`. -/
def Board.roleSet (b : Board) (role : Role) : SquareSet :=
  match role with
  | .pawn => b.pawn
  | .promotedpawn => b.promotedpawn
  | .knight => b.knight
  | .bishop => b.bishop
  | .rook => b.rook
  | .queen => b.queen
  | .king => b.king

/-- Dynamic assignment `board[color] = s`. -/
def Board.setColorSet (b : Board) (color : Color) (s : SquareSet) : Board :=
  match color with
  | .white => { b with white := s }
  | .black => { b with black := s }

/-- Dynamic assignment `board[role] = s`. -/
def Board.setRoleSet (b : Board) (role : Role) (s : SquareSet) : Board :=
  match role with
  | .pawn => { b with pawn := s }
  | .promotedpawn => { b with promotedpawn := s }
  | .knight => { b with knight := s }
  | .bishop => { b with bishop := s }
  | .rook => { b with rook := s }
  | .queen => { b with queen := s }
  | .king => { b with king := s }

/-- Embeds `Board.default()` / `reset()` from `src/board.ts` (the source keeps the
orthodox-chess starting arrangement, with a todo to adapt it to makruk).
The source's `reset()` never assigns `promotedpawn`, so in the shipped JS a
default board faults in `getRole` (`undefined.has`) on any occupied
non-pawn square; the embedding totalizes that set to empty. -/
def Board.default : Board where
  occupied := ⟨0xffff, 0xffff0000⟩
  white := ⟨0xffff, 0⟩
  black := ⟨0, 0xffff0000⟩
  pawn := ⟨0xff00, 0x00ff0000⟩
  promotedpawn := ⟨0, 0⟩
  knight := ⟨0x42, 0x42000000⟩
  bishop := ⟨0x24, 0x24000000⟩
  rook := ⟨0x81, 0x81000000⟩
  queen := ⟨0x8, 0x08000000⟩
  king := ⟨0x10, 0x10000000⟩

def Board.empty : Board where
  occupied := SquareSet.empty
  white := SquareSet.empty
  black := SquareSet.empty
  pawn := SquareSet.empty
  promotedpawn := SquareSet.empty
  knight := SquareSet.empty
  bishop := SquareSet.empty
  rook := SquareSet.empty
  queen := SquareSet.empty
  king := SquareSet.empty

def Board.getColor (b : Board) (square : Nat) : Option Color :=
  if b.white.has square then some .white
  else if b.black.has square then some .black
  else none

/-- Probe the role sets in `ROLES` order, as `getRole` does. -/
def Board.getRole (b : Board) (square : Nat) : Option Role :=
  ROLES.find? fun role => (b.roleSet role).has square

/-- Embeds `get`; the source asserts the role with `!` once a color is found, which
holds under the board invariant.  An inconsistent board yields `none`. -/
def Board.get (b : Board) (square : Nat) : Option Piece :=
  match b.getColor square with
  | none => none
  | some color =>
    match b.getRole square with
    | some role => some ⟨color, role⟩
    | none => none

/-- Embeds `take`: removes and returns the piece on `square`, if any.  The JS
method mutates in place; the embedding returns the updated board. -/
def Board.take (b : Board) (square : Nat) : Board × Option Piece :=
  match b.get square with
  | some piece =>
    ({ (b.setColorSet piece.color ((b.colorSet piece.color).without square)).setRoleSet
          piece.role ((b.roleSet piece.role).without square) with
        occupied := b.occupied.without square },
      some piece)
  | none => (b, none)

/-- Embeds `set`: puts `piece` onto `square`, returning any prior occupant. -/
def Board.set (b : Board) (square : Nat) (piece : Piece) : Board × Option Piece :=
  let t := b.take square
  ({ (t.1.setColorSet piece.color ((t.1.colorSet piece.color).with' square)).setRoleSet
        piece.role ((t.1.roleSet piece.role).with' square) with
      occupied := t.1.occupied.with' square },
    t.2)

def Board.pieces (b : Board) (color : Color) (role : Role) : SquareSet :=
  (b.colorSet color).intersect (b.roleSet role)

def Board.kingOf (b : Board) (color : Color) : Option Nat :=
  (b.pieces color .king).singleSquare

def boardEquals (left right : Board) : Bool :=
  left.white.equals right.white &&
    ROLES.all fun role => (left.roleSet role).equals (right.roleSet role)

/-- Modelled from the spec: `RemainingChecks` lives in `src/setup.ts`, which
is not in the shared sources.  Per §3 it is an optional per-color counter;
its `clone` is a value copy. -/
structure RemainingChecks where
  white : Nat
  black : Nat
deriving DecidableEq

def RemainingChecks.get (rc : RemainingChecks) (color : Color) : Nat :=
  match color with
  | .white => rc.white
  | .black => rc.black

def RemainingChecks.set (rc : RemainingChecks) (color : Color) (n : Nat) : RemainingChecks :=
  match color with
  | .white => { rc with white := n }
  | .black => { rc with black := n }

/-- Modelled from the spec: `Setup` lives in the missing `src/setup.ts`.
Per §6 it is the not-yet-validated record {board, turn, optional
remaining-checks counters, halfmove clock, fullmove number}. -/
structure Setup where
  board : Board
  turn : Color
  remainingChecks : Option RemainingChecks
  halfmoves : Nat
  fullmoves : Nat
deriving DecidableEq

inductive IllegalSetup where
  | Empty
  | OppositeCheck
  | PawnsOnBackrank
  | Kings
deriving DecidableEq

/-- The makruk `Position` state: board, turn and counters
(`src/makruk.ts`). -/
structure Position where
  board : Board
  turn : Color
  remainingChecks : Option RemainingChecks
  halfmoves : Nat
  fullmoves : Nat
deriving DecidableEq

/-- Embeds `attacksTo` from `src/makruk.ts`, embedded exactly as written: the rook
rays are not intersected with `board.rook`, and the queen step pattern is
intersected with `board.king`. -/
def attacksTo (square : Nat) (attacker : Color) (board : Board) (occupied : SquareSet) :
    SquareSet :=
  (board.colorSet attacker).intersect
    ((((((rookAttacks square occupied).union
        ((bishopAttacks (opposite attacker) square).intersect board.bishop)).union
        ((knightAttacks square).intersect board.knight)).union
        ((kingAttacks square).intersect board.king)).union
        ((queenAttacks square).intersect board.king)).union
        ((pawnAttacks (opposite attacker) square).intersect board.pawn))

def Position.kingAttackers (pos : Position) (square : Nat) (attacker : Color)
    (occupied : SquareSet) : SquareSet :=
  attacksTo square attacker pos.board occupied

structure Context where
  king : Option Nat
  blockers : SquareSet
  checkers : SquareSet
  variantEnd : Bool
  mustCapture : Bool
deriving DecidableEq

def Position.isVariantEnd (_pos : Position) : Bool := false

/-- Embeds `ctx()` from `src/makruk.ts`. -/
def Position.ctx (pos : Position) : Context :=
  let variantEnd := pos.isVariantEnd
  match pos.board.kingOf pos.turn with
  | none => ⟨none, SquareSet.empty, SquareSet.empty, variantEnd, false⟩
  | some king =>
    let snipers := (rookAttacks king SquareSet.empty).intersect
      (pos.board.colorSet (opposite pos.turn))
    let blockers := snipers.toList.foldl
      (fun blockers sniper =>
        let b := (between king sniper).intersect pos.board.occupied
        if b.moreThanOne then blockers else blockers.union b)
      SquareSet.empty
    let checkers := pos.kingAttackers king (opposite pos.turn) pos.board.occupied
    ⟨some king, blockers, checkers, variantEnd, false⟩

/-- Embeds `validate()`: the four setup checks, in source order. -/
def Position.validate (pos : Position) : Option IllegalSetup :=
  if pos.board.occupied.isEmpty then some .Empty
  else if pos.board.king.size ≠ 2 then some .Kings
  else
    match pos.board.kingOf pos.turn with
    | none => some .Kings
    | some _ =>
      match pos.board.kingOf (opposite pos.turn) with
      | none => some .Kings
      | some otherKing =>
        if (pos.kingAttackers otherKing pos.turn pos.board.occupied).nonEmpty then
          some .OppositeCheck
        else if SquareSet.backranks.intersects pos.board.pawn then some .PawnsOnBackrank
        else none

/-- Embeds `dests(square)`: pseudo-legal destinations filtered by the king-safety,
check-evasion and pin blocks of `src/makruk.ts` lines 134-180, including the
block that intersects even king moves with the single-checker ray. -/
def Position.dests (pos : Position) (square : Nat) : SquareSet :=
  let ctx := pos.ctx
  if ctx.variantEnd then SquareSet.empty
  else
  match pos.board.get square with
  | none => SquareSet.empty
  | some piece =>
    if piece.color ≠ pos.turn then SquareSet.empty
    else
      let pseudo :=
        if piece.role = .pawn then
          let p0 := (pawnAttacks pos.turn square).intersect
            (pos.board.colorSet (opposite pos.turn))
          let delta : Int := if pos.turn = .white then 8 else -8
          let step : Int := (square : Int) + delta
          if 0 ≤ step ∧ step < 64 ∧ pos.board.occupied.has step.toNat = false then
            let p1 := p0.with' step.toNat
            let canDoubleStep := if pos.turn = .white then square < 16 else 48 ≤ square
            let doubleStep : Int := step + delta
            if canDoubleStep ∧ pos.board.occupied.has doubleStep.toNat = false then
              p1.with' doubleStep.toNat
            else p1
          else p0
        else if piece.role = .bishop then bishopAttacks pos.turn square
        else if piece.role = .knight then knightAttacks square
        else if piece.role = .rook then rookAttacks square pos.board.occupied
        else if piece.role = .queen then queenAttacks square
        else kingAttacks square
      let pseudo := pseudo.diff (pos.board.colorSet pos.turn)
      match ctx.king with
      | none => pseudo
      | some king =>
        let pseudo :=
          if piece.role = .king then
            let occ := pos.board.occupied.without square
            pseudo.toList.foldl
              (fun acc to' =>
                if (pos.kingAttackers to' (opposite pos.turn) occ).nonEmpty then
                  acc.without to'
                else acc)
              pseudo
          else pseudo
        if ctx.checkers.nonEmpty then
          match ctx.checkers.singleSquare with
          | none => SquareSet.empty
          | some checker =>
            let pseudo := pseudo.intersect ((between checker king).with' checker)
            if ctx.blockers.has square then pseudo.intersect (ray square king) else pseudo
        else
          if ctx.blockers.has square then pseudo.intersect (ray square king) else pseudo

/-- Embeds `hasInsufficientMaterial` from `src/makruk.ts`, embedded as written:
only pawns (not rooks or queens) force the early `false`. -/
def Position.hasInsufficientMaterial (pos : Position) (color : Color) : Bool :=
  if ((pos.board.colorSet color).intersect pos.board.pawn).nonEmpty then false
  else if (pos.board.colorSet color).intersects pos.board.knight then
    decide ((pos.board.colorSet color).size ≤ 2) &&
      (((pos.board.colorSet (opposite color)).diff pos.board.king).diff
          pos.board.queen).isEmpty
  else if (pos.board.colorSet color).intersects pos.board.bishop then
    let sameColor := !pos.board.bishop.intersects SquareSet.darkSquares ||
      !pos.board.bishop.intersects SquareSet.lightSquares
    sameColor && pos.board.pawn.isEmpty && pos.board.knight.isEmpty
  else true

def Position.toSetup (pos : Position) : Setup where
  board := pos.board
  turn := pos.turn
  remainingChecks := pos.remainingChecks
  halfmoves := min pos.halfmoves 150
  fullmoves := min (max pos.fullmoves 1) 9999

def Position.isInsufficientMaterial (pos : Position) : Bool :=
  COLORS.all fun color => pos.hasInsufficientMaterial color

def Position.hasDests (pos : Position) : Bool :=
  (pos.board.colorSet pos.turn).toList.any fun square => (pos.dests square).nonEmpty

def Position.isLegal (pos : Position) (move : Move) : Bool :=
  if move.promotion = some .pawn then false
  else if move.promotion.isSome ≠
      (pos.board.pawn.has move.from' && SquareSet.backranks.has move.to') then false
  else (pos.dests move.from').has move.to'

def Position.isCheck (pos : Position) : Bool :=
  match pos.board.kingOf pos.turn with
  | none => false
  | some king => (pos.kingAttackers king (opposite pos.turn) pos.board.occupied).nonEmpty

def Position.isCheckmate (pos : Position) : Bool :=
  let ctx := pos.ctx
  !ctx.variantEnd && ctx.checkers.nonEmpty && !pos.hasDests

def Position.isStalemate (pos : Position) : Bool :=
  let ctx := pos.ctx
  !ctx.variantEnd && ctx.checkers.isEmpty && !pos.hasDests

/-- Embeds `play(move)`: unconditional move application from `src/makruk.ts`.  The
dead local `epCapture` of the source is always `undefined` and is dropped. -/
def Position.play (pos : Position) (move : Move) : Position :=
  let turn := pos.turn
  let halfmoves := pos.halfmoves + 1
  let fullmoves := if turn = .black then pos.fullmoves + 1 else pos.fullmoves
  let turn' := opposite turn
  match pos.board.take move.from' with
  | (board1, none) =>
    { pos with board := board1, turn := turn', halfmoves := halfmoves, fullmoves := fullmoves }
  | (board1, some piece) =>
    let halfmoves := if piece.role = .pawn then 0 else halfmoves
    let piece :=
      if piece.role = .pawn then
        match move.promotion with
        | some promotion => { piece with role := promotion }
        | none => piece
      else piece
    let st := board1.set move.to' piece
    let halfmoves := if st.2.isSome then 0 else halfmoves
    let pos' : Position :=
      { board := st.1, turn := turn', remainingChecks := pos.remainingChecks,
        halfmoves := halfmoves, fullmoves := fullmoves }
    match pos.remainingChecks with
    | none => pos'
    | some rc =>
      if pos'.isCheck then
        { pos' with remainingChecks := some (rc.set turn (rc.get turn - 1)) }
      else pos'

/-- Embeds `Makruk.default()`. -/
def Makruk.default : Position where
  board := Board.default
  turn := .white
  remainingChecks := none
  halfmoves := 0
  fullmoves := 1

/-- Embeds `Makruk.fromSetup(setup)`: `setupUnchecked` (which discards the setup's
remaining-checks counters) followed by `validate`. -/
def Makruk.fromSetup (setup : Setup) : Except IllegalSetup Position :=
  let pos : Position :=
    { board := setup.board, turn := setup.turn, remainingChecks := none,
      halfmoves := setup.halfmoves, fullmoves := setup.fullmoves }
  match pos.validate with
  | some e => .error e
  | none => .ok pos

/-- Build a board by `Board.set` calls, used for the concrete positions
below. -/
def mkBoard (pieces : List (Nat × Piece)) : Board :=
  pieces.foldl (fun b entry => (b.set entry.1 entry.2).1) Board.empty

/-- Spec-side predicate (spec §4.4, "Checkers: actual attackers of the king
square given the real occupancy"): some square holds a piece of `attacker`
whose `attacks` set under `occupied` contains `target`. -/
def specAttacked (board : Board) (occupied : SquareSet) (target : Nat)
    (attacker : Color) : Bool :=
  (List.range 64).any fun sq =>
    match board.get sq with
    | some piece => piece.color == attacker && (attacks piece sq occupied).has target
    | none => false

/-- Spec-side set of checker squares: opponent-occupied squares whose piece
attacks the king under the real occupancy. -/
def specCheckers (board : Board) (occupied : SquareSet) (kingSq : Nat)
    (attacker : Color) : List Nat :=
  (List.range 64).filter fun sq =>
    match board.get sq with
    | some piece => piece.color == attacker && (attacks piece sq occupied).has kingSq
    | none => false

/-- C1 failing input: white king e4, black king a8, black met (queen) d5,
white to move. -/
def posC1 : Position where
  board := mkBoard [(28, ⟨.white, .king⟩), (56, ⟨.black, .king⟩), (35, ⟨.black, .queen⟩)]
  turn := .white
  remainingChecks := none
  halfmoves := 0
  fullmoves := 1

/-- C2 failing input: white king a1 in double check from the black rook a8
and black knight c2; black king h8. -/
def posC2 : Position where
  board := mkBoard [(0, ⟨.white, .king⟩), (63, ⟨.black, .king⟩), (56, ⟨.black, .rook⟩),
    (10, ⟨.black, .knight⟩)]
  turn := .white
  remainingChecks := none
  halfmoves := 0
  fullmoves := 1

/-- The four-move-mate line of the spec scenario, as `play` inputs:
e2e4, e7e5, d1h5, g8f6, f1c4, b8c6, h5f7. -/
def scholarMoves : List Move :=
  [⟨12, 28, none⟩, ⟨52, 36, none⟩, ⟨3, 39, none⟩, ⟨62, 45, none⟩,
    ⟨5, 26, none⟩, ⟨57, 42, none⟩, ⟨39, 53, none⟩]

def posC3 : Position :=
  scholarMoves.foldl Position.play Makruk.default

/-- C4 failing input: white king e1 and rook a1 versus the bare black king
h8, white to move. -/
def posC4 : Position where
  board := mkBoard [(4, ⟨.white, .king⟩), (0, ⟨.white, .rook⟩), (63, ⟨.black, .king⟩)]
  turn := .white
  remainingChecks := none
  halfmoves := 0
  fullmoves := 1

/-- C6 failing input setup: white to move, black king h8 attacked by the
white met (queen) on g7; white king a1. -/
def setupC6 : Setup where
  board := mkBoard [(0, ⟨.white, .king⟩), (54, ⟨.white, .queen⟩), (63, ⟨.black, .king⟩)]
  turn := .white
  remainingChecks := none
  halfmoves := 0
  fullmoves := 1

/-- Reachability by legal `play` calls from a given starting position, the
quantifier of the spec's round-trip property. -/
inductive ReachableFrom : Position → Position → Prop where
  | refl (start : Position) : ReachableFrom start start
  | step {start p : Position} (move : Move) (h : ReachableFrom start p)
      (hlegal : p.isLegal move = true) : ReachableFrom start (p.play move)

/-- A bare-kings board built by `Board.set` calls on `Board.empty` (whose
`clear()` assigns every role set), so every code path it reaches runs
crash-free in the shipped JS. -/
def twoKingsBoard : Board :=
  mkBoard [(4, ⟨.white, .king⟩), (63, ⟨.black, .king⟩)]

/-- A setup whose halfmove clock is already past the 150 snapshot cap
(`play` never caps the clock, so 151 reversible plies produce the same
value; nothing in `validate` inspects the counters). -/
def setup151 : Setup := ⟨twoKingsBoard, .white, none, 151, 1⟩

/-- The valid starting position obtained by validating `setup151`. -/
def start151 : Position := ⟨twoKingsBoard, .white, none, 151, 1⟩

/-- A small validated position with in-range counters, used to exercise the
amended round-trip theorem. -/
def posC5w : Position := ⟨twoKingsBoard, .white, none, 7, 3⟩

/-- All ten bit-sets of a board are 32-bit well-formed. -/
def Board.Wf (b : Board) : Prop :=
  b.occupied.Wf ∧ (∀ c ∈ COLORS, (b.colorSet c).Wf) ∧ ∀ r ∈ ROLES, (b.roleSet r).Wf

/-- The board invariant of the spec (§3): the occupancy is the union of the
two color sets and also of the seven role sets, the color sets and the role
sets are pairwise disjoint, and every occupied square lies in exactly one
color set and exactly one role set. -/
def Board.Inv (b : Board) : Prop :=
  b.Wf ∧
  b.occupied = (b.colorSet .white).union (b.colorSet .black) ∧
  b.occupied = (((((((b.roleSet .pawn).union (b.roleSet .promotedpawn)).union
      (b.roleSet .knight)).union (b.roleSet .bishop)).union (b.roleSet .rook)).union
      (b.roleSet .queen)).union (b.roleSet .king)) ∧
  (b.colorSet .white).intersect (b.colorSet .black) = SquareSet.empty ∧
  (∀ r1 ∈ ROLES, ∀ r2 ∈ ROLES, r1 ≠ r2 →
      (b.roleSet r1).intersect (b.roleSet r2) = SquareSet.empty) ∧
  (∀ sq < 64, b.occupied.has sq = true →
      (COLORS.filter fun c => (b.colorSet c).has sq).length = 1 ∧
      (ROLES.filter fun r => (b.roleSet r).has sq).length = 1)

instance (b : Board) : Decidable b.Wf := by
  unfold Board.Wf
  infer_instance

instance (b : Board) : Decidable b.Inv := by
  unfold Board.Inv
  infer_instance

instance : DecidableEq (Except IllegalSetup Position) := fun a b => by
  cases a <;> cases b
  case error.error x y =>
    exact if h : x = y then .isTrue (congrArg _ h) else .isFalse fun hh => h (Except.error.inj hh)
  case error.ok x y => exact .isFalse fun hh => by cases hh
  case ok.error x y => exact .isFalse fun hh => by cases hh
  case ok.ok x y =>
    exact if h : x = y then .isTrue (congrArg _ h) else .isFalse fun hh => h (Except.ok.inj hh)

/-- Claim C1: refuted on the code.  At `posC1` (a position accepted by
`validate`) the black met on d5 attacks the white king on e4 under the
exported `attacks` dispatch, yet `isCheck` is `false` and the `ctx` checkers
set is empty: `attacksTo` intersects the met/queen step pattern with
`board.king` and never consults `board.queen` or `board.promotedpawn`. -/
theorem isCheck_divergence :
    posC1.validate = none ∧
    posC1.board.kingOf .white = some 28 ∧
    posC1.isCheck = false ∧
    specAttacked posC1.board posC1.board.occupied 28 .black = true ∧
    posC1.ctx.checkers = SquareSet.empty := by
  decide

/-- Claim C2: refuted on the code.  At `posC2` the white king on a1 is in
double check (checkers a8 and c2); square b1 is a pseudo-legal king
destination that is attacked by nobody on the board with the king removed,
yet `dests` returns the empty set for the king: with more than one checker
the single-checker block returns empty for every piece, king included. -/
theorem dests_double_check_collapse :
    posC2.validate = none ∧
    posC2.ctx.checkers.moreThanOne = true ∧
    ((kingAttacks 0).diff (posC2.board.colorSet .white)).has 1 = true ∧
    specAttacked posC2.board (posC2.board.occupied.without 0) 1 .black = false ∧
    posC2.dests 0 = SquareSet.empty := by
  decide

/-- Claim C3: refuted on the code.  After the four-move-mate sequence the
white met stands on f7 attacking the black king on e8 (the spec-side checker
list is exactly `[53]`), but the position's checkers set is empty and
`isCheckmate` returns `false`, because `attacksTo` cannot see met/queen
attackers. -/
theorem fools_mate_not_detected :
    posC3.board.kingOf .black = some 60 ∧
    specCheckers posC3.board posC3.board.occupied 60 .white = [53] ∧
    posC3.ctx.checkers = SquareSet.empty ∧
    posC3.isCheckmate = false := by
  decide

/-- Claim C4: refuted on the code.  `posC4` is a validated position where
white has a rook, yet `hasInsufficientMaterial` counts white as materially
insufficient and the whole position as drawn: the early-exit of the source
only tests pawns, never rooks or queens. -/
theorem lone_rook_counted_insufficient :
    posC4.validate = none ∧
    (posC4.board.pieces .white .rook).nonEmpty = true ∧
    posC4.hasInsufficientMaterial .white = true ∧
    posC4.isInsufficientMaterial = true := by
  decide

/-- Claim C6: refuted on the code.  In `setupC6` the side not to move
(black) has its king on h8 attacked by the white met on g7 under the real
attack dispatch, so the claim demands an opposite-side-in-check error; but
`Makruk.fromSetup` accepts the setup, since the `validate` check uses the
same `attacksTo` that is blind to met/queen attackers. -/
theorem fromSetup_accepts_opposite_met_check :
    Makruk.fromSetup setupC6 =
      .ok { board := setupC6.board, turn := .white, remainingChecks := none,
            halfmoves := 0, fullmoves := 1 } ∧
    specAttacked setupC6.board setupC6.board.occupied 63 .white = true := by
  decide

/-- Claim C8: confirmed.  On an empty board a rook attacks exactly its full
rank and file minus its own square, and on square 43 against the occupancy
pattern `(0x2826f5b9, 0x3f7f2880)` it attacks exactly `(0x8000000,
0x83708)`. -/
theorem rookAttacks_empty_and_concrete :
    (∀ square : Fin 64,
      rookAttacks square.val SquareSet.empty =
        ((SquareSet.fromRank (squareRank square.val)).union
          (SquareSet.fromFile (squareFile square.val))).without square.val) ∧
    rookAttacks 43 ⟨0x2826f5b9, 0x3f7f2880⟩ = ⟨0x8000000, 0x83708⟩ := by
  decide

/-- Claim C10: confirmed.  `toSetup` copies board, turn and the
remaining-checks counters unchanged while clamping the halfmove clock to at
most 150 and the fullmove number into `[1, 9999]`. -/
theorem toSetup_clamps_counters (pos : Position) :
    pos.toSetup.board = pos.board ∧
    pos.toSetup.turn = pos.turn ∧
    pos.toSetup.remainingChecks = pos.remainingChecks ∧
    pos.toSetup.halfmoves = (if pos.halfmoves ≤ 150 then pos.halfmoves else 150) ∧
    pos.toSetup.fullmoves =
      (if pos.fullmoves = 0 then 1
        else if pos.fullmoves ≤ 9999 then pos.fullmoves else 9999) := by
  refine ⟨rfl, rfl, rfl, ?_, ?_⟩ <;> simp only [Position.toSetup]
  · split <;> omega
  · split
    · omega
    · split <;> omega

theorem land_land_one (x y : Nat) : x &&& y &&& 1 = x % 2 * (y % 2) := by
  have h := Nat.testBit_and x y 0
  simp only [Nat.testBit_zero] at h
  rw [Nat.and_one_is_mod]
  rcases Nat.mod_two_eq_zero_or_one x with hx | hx <;>
    rcases Nat.mod_two_eq_zero_or_one y with hy | hy <;>
    rcases Nat.mod_two_eq_zero_or_one (x &&& y) with hxy | hxy <;>
    simp [hx, hy, hxy] at h ⊢

theorem minus64_borrow (L B : Nat) :
    ((L &&& B &&& 1) + (B >>> 1) + (L >>> 1)) >>> 31 = (L + B) / 4294967296 := by
  rw [land_land_one, Nat.shiftRight_eq_div_pow, Nat.shiftRight_eq_div_pow,
    Nat.shiftRight_eq_div_pow]
  rcases Nat.mod_two_eq_zero_or_one L with h1 | h1 <;>
    rcases Nat.mod_two_eq_zero_or_one B with h2 | h2 <;>
    rw [h1, h2] <;> norm_num <;> omega

/-- Claim C7: confirmed.  Reading each `SquareSet` as the 64-bit unsigned
value `lo + 2 ^ 32 * hi`, `minus64` is exact two's-complement 64-bit
subtraction, borrow propagation included. -/
theorem minus64_two_complement_exact (a b : SquareSet) (ha : a.Wf) (hb : b.Wf) :
    ((a.minus64 b).val : Int) = ((a.val : Int) - b.val) % 18446744073709551616 := by
  obtain ⟨ha1, ha2⟩ := ha
  obtain ⟨hb1, hb2⟩ := hb
  obtain ⟨A, H⟩ := a
  obtain ⟨B, K⟩ := b
  simp only [SquareSet.minus64, SquareSet.val] at *
  rw [minus64_borrow ((A + 4294967296 - B) % 4294967296) B]
  push_cast
  omega

/-- Witness for C7 at a concrete pair of square sets. -/
theorem minus64_two_complement_exact_witness :
    SquareSet.Wf ⟨3, 5⟩ ∧ SquareSet.Wf ⟨10, 2⟩ ∧
    ((SquareSet.minus64 ⟨3, 5⟩ ⟨10, 2⟩).val : Int) =
      ((SquareSet.val ⟨3, 5⟩ : Int) - SquareSet.val ⟨10, 2⟩) % 18446744073709551616 :=
  ⟨by decide, by decide, minus64_two_complement_exact ⟨3, 5⟩ ⟨10, 2⟩ (by decide) (by decide)⟩

theorem boardEquals_refl (b : Board) : boardEquals b b = true := by
  simp [boardEquals, ROLES, SquareSet.equals]

/-- Claim C5, counterexample: `start151` is a valid starting position (it
is exactly what `Makruk.fromSetup setup151` returns, and neither `validate`
nor the snapshot code below touches any spec-modelled function), it is
reachable from itself by the empty sequence of legal plays, and its
halfmove clock is 151; the `toSetup`/`fromSetup` round trip yields halfmove
clock 150, so the claimed counter equality fails on a reachable position. -/
theorem roundtrip_clamp_counterexample :
    Makruk.fromSetup setup151 = .ok start151 ∧
    ReachableFrom start151 start151 ∧
    start151.halfmoves = 151 ∧
    (Makruk.fromSetup start151.toSetup).map Position.halfmoves = .ok 150 := by
  exact ⟨by rfl, ReachableFrom.refl start151, rfl, by rfl⟩

/-- Claim C5, amended: for every position that passes validation, the
`toSetup`/`fromSetup` round trip succeeds and the result equals the
original in board contents (per `boardEquals`) and turn; the halfmove clock
and fullmove number are both preserved exactly when they lie within the
snapshot limits `halfmoves ≤ 150` and `1 ≤ fullmoves ≤ 9999`. -/
theorem roundtrip_preserves_within_limits (p : Position) (hv : p.validate = none) :
    ∃ q, Makruk.fromSetup p.toSetup = .ok q ∧ boardEquals q.board p.board = true ∧
      q.turn = p.turn ∧
      ((q.halfmoves = p.halfmoves ∧ q.fullmoves = p.fullmoves) ↔
        (p.halfmoves ≤ 150 ∧ 1 ≤ p.fullmoves ∧ p.fullmoves ≤ 9999)) := by
  have hv' : Position.validate
      ⟨p.board, p.turn, none, min p.halfmoves 150, min (max p.fullmoves 1) 9999⟩ = none := hv
  refine ⟨⟨p.board, p.turn, none, min p.halfmoves 150, min (max p.fullmoves 1) 9999⟩, ?_,
    boardEquals_refl p.board, rfl, ?_⟩
  · unfold Makruk.fromSetup Position.toSetup
    simp only [hv']
  · show (min p.halfmoves 150 = p.halfmoves ∧ min (max p.fullmoves 1) 9999 = p.fullmoves) ↔
      (p.halfmoves ≤ 150 ∧ 1 ≤ p.fullmoves ∧ p.fullmoves ≤ 9999)
    omega

/-- Witness for the amended C5 at a small validated position. -/
theorem roundtrip_preserves_within_limits_witness :
    posC5w.validate = none ∧
    ∃ q, Makruk.fromSetup posC5w.toSetup = .ok q ∧
      boardEquals q.board posC5w.board = true ∧
      q.turn = posC5w.turn ∧
      ((q.halfmoves = posC5w.halfmoves ∧ q.fullmoves = posC5w.fullmoves) ↔
        (posC5w.halfmoves ≤ 150 ∧ 1 ≤ posC5w.fullmoves ∧ posC5w.fullmoves ≤ 9999)) :=
  ⟨by decide, roundtrip_preserves_within_limits posC5w (by decide)⟩

theorem and_pow_ne (x k : Nat) : ((x &&& 2 ^ k) != 0) = x.testBit k := by
  cases htb : x.testBit k with
  | false =>
    have hz : x &&& 2 ^ k = 0 := by
      apply Nat.eq_of_testBit_eq
      intro j
      by_cases hj : j = k
      · subst hj
        simp [Nat.testBit_and, htb]
      · simp [Nat.testBit_and, Nat.testBit_two_pow, Ne.symm hj]
    simp [hz]
  | true =>
    have hnz : x &&& 2 ^ k ≠ 0 := by
      intro h0
      have h1 := Nat.testBit_and x (2 ^ k) k
      rw [h0] at h1
      simp [htb, Nat.testBit_two_pow_self] at h1
    simp [hnz]

theorem has_eq_testBit (s : SquareSet) (i : Nat) :
    s.has i = (if 32 ≤ i then s.hi.testBit (i - 32) else s.lo.testBit i) := by
  unfold SquareSet.has
  split <;> rw [Nat.one_shiftLeft, and_pow_ne]

theorem has_union (s t : SquareSet) (i : Nat) :
    (s.union t).has i = (s.has i || t.has i) := by
  simp only [has_eq_testBit, SquareSet.union]
  split <;> simp [Nat.testBit_or]

theorem has_intersect (s t : SquareSet) (i : Nat) :
    (s.intersect t).has i = (s.has i && t.has i) := by
  simp only [has_eq_testBit, SquareSet.intersect]
  split <;> simp [Nat.testBit_and]

theorem testBit_not32 (x k : Nat) (hk : k < 32) : (not32 x).testBit k = !x.testBit k := by
  have hmask : (4294967295 : Nat) = 2 ^ 32 - 1 := by norm_num
  rw [not32, hmask, Nat.testBit_xor, Nat.testBit_two_pow_sub_one]
  simp [hk]

theorem has_diff (s t : SquareSet) (i : Nat) (hi : i < 64) :
    (s.diff t).has i = (s.has i && !t.has i) := by
  simp only [has_eq_testBit, SquareSet.diff]
  split
  · next h32 => rw [Nat.testBit_and, testBit_not32 _ _ (by omega : i - 32 < 32)]
  · next h32 => rw [Nat.testBit_and, testBit_not32 _ _ (by omega : i < 32)]

theorem has_empty (i : Nat) : SquareSet.empty.has i = false := by
  rw [has_eq_testBit]
  split <;> simp [SquareSet.empty]

theorem has_with (s : SquareSet) (i j : Nat) (hi : i < 64) (hj : j < 64) :
    (s.with' j).has i = (decide (i = j) || s.has i) := by
  unfold SquareSet.with'
  by_cases h32j : 32 ≤ j
  · rw [if_pos h32j, has_eq_testBit, has_eq_testBit]
    by_cases h32i : 32 ≤ i
    · rw [if_pos h32i, if_pos h32i]
      show (s.hi ||| 1 <<< (j - 32)).testBit (i - 32) = _
      rw [Nat.one_shiftLeft, Nat.testBit_or, Nat.testBit_two_pow]
      by_cases hij : i = j
      · subst hij
        simp
      · have h1 : ¬(j - 32 = i - 32) := by omega
        simp [hij, h1]
    · rw [if_neg h32i, if_neg h32i]
      show s.lo.testBit i = _
      have hij : ¬(i = j) := by omega
      simp [hij]
  · rw [if_neg h32j, has_eq_testBit, has_eq_testBit]
    by_cases h32i : 32 ≤ i
    · rw [if_pos h32i, if_pos h32i]
      show s.hi.testBit (i - 32) = _
      have hij : ¬(i = j) := by omega
      simp [hij]
    · rw [if_neg h32i, if_neg h32i]
      show (s.lo ||| 1 <<< j).testBit i = _
      rw [Nat.one_shiftLeft, Nat.testBit_or, Nat.testBit_two_pow]
      by_cases hij : i = j
      · subst hij
        simp
      · have h1 : ¬(j = i) := fun h => hij h.symm
        simp [hij, h1]

theorem has_without (s : SquareSet) (i j : Nat) (hi : i < 64) (hj : j < 64) :
    (s.without j).has i = (!decide (i = j) && s.has i) := by
  unfold SquareSet.without
  by_cases h32j : 32 ≤ j
  · rw [if_pos h32j, has_eq_testBit, has_eq_testBit]
    by_cases h32i : 32 ≤ i
    · rw [if_pos h32i, if_pos h32i]
      show (s.hi &&& not32 (1 <<< (j - 32))).testBit (i - 32) = _
      rw [Nat.testBit_and, testBit_not32 _ _ (by omega : i - 32 < 32), Nat.one_shiftLeft,
        Nat.testBit_two_pow]
      by_cases hij : i = j
      · subst hij
        simp
      · have h1 : ¬(j - 32 = i - 32) := by omega
        simp [hij, h1, Bool.and_comm]
    · rw [if_neg h32i, if_neg h32i]
      show s.lo.testBit i = _
      have hij : ¬(i = j) := by omega
      simp [hij]
  · rw [if_neg h32j, has_eq_testBit, has_eq_testBit]
    by_cases h32i : 32 ≤ i
    · rw [if_pos h32i, if_pos h32i]
      show s.hi.testBit (i - 32) = _
      have hij : ¬(i = j) := by omega
      simp [hij]
    · rw [if_neg h32i, if_neg h32i]
      show (s.lo &&& not32 (1 <<< j)).testBit i = _
      rw [Nat.testBit_and, testBit_not32 _ _ (by omega : i < 32), Nat.one_shiftLeft,
        Nat.testBit_two_pow]
      by_cases hij : i = j
      · subst hij
        simp
      · have h1 : ¬(j = i) := fun h => hij h.symm
        simp [hij, h1, Bool.and_comm]

theorem ext_of_has (s t : SquareSet) (hs : s.Wf) (ht : t.Wf)
    (h : ∀ i, i < 64 → s.has i = t.has i) : s = t := by
  have hpow : (4294967296 : Nat) = 2 ^ 32 := by norm_num
  obtain ⟨slo, shi⟩ := s
  obtain ⟨tlo, thi⟩ := t
  obtain ⟨hs1, hs2⟩ := hs
  obtain ⟨ht1, ht2⟩ := ht
  rw [hpow] at hs1 hs2 ht1 ht2
  have hlo : slo = tlo := by
    apply Nat.eq_of_testBit_eq
    intro k
    by_cases hk : k < 32
    · have hhk := h k (by omega)
      rw [has_eq_testBit, has_eq_testBit] at hhk
      simp only [if_neg (show ¬32 ≤ k by omega)] at hhk
      exact hhk
    · rw [Nat.testBit_lt_two_pow (lt_of_lt_of_le hs1 (Nat.pow_le_pow_right (by norm_num)
          (by omega))),
        Nat.testBit_lt_two_pow (lt_of_lt_of_le ht1 (Nat.pow_le_pow_right (by norm_num)
          (by omega)))]
  have hhi : shi = thi := by
    apply Nat.eq_of_testBit_eq
    intro k
    by_cases hk : k < 32
    · have hhk := h (k + 32) (by omega)
      rw [has_eq_testBit, has_eq_testBit] at hhk
      simp only [if_pos (show 32 ≤ k + 32 by omega)] at hhk
      simpa using hhk
    · rw [Nat.testBit_lt_two_pow (lt_of_lt_of_le hs2 (Nat.pow_le_pow_right (by norm_num)
          (by omega))),
        Nat.testBit_lt_two_pow (lt_of_lt_of_le ht2 (Nat.pow_le_pow_right (by norm_num)
          (by omega)))]
  rw [hlo, hhi]

theorem lt32_or {x y : Nat} (hx : x < 4294967296) (hy : y < 4294967296) :
    x ||| y < 4294967296 := by
  have hpow : (4294967296 : Nat) = 2 ^ 32 := by norm_num
  rw [hpow] at hx hy ⊢
  exact Nat.or_lt_two_pow hx hy

theorem lt32_and_left {x : Nat} (y : Nat) (hx : x < 4294967296) : x &&& y < 4294967296 :=
  Nat.lt_of_le_of_lt Nat.and_le_left hx

theorem Wf_empty : SquareSet.empty.Wf := by decide

theorem Wf_union {s t : SquareSet} (hs : s.Wf) (ht : t.Wf) : (s.union t).Wf :=
  ⟨lt32_or hs.1 ht.1, lt32_or hs.2 ht.2⟩

theorem Wf_intersect {s t : SquareSet} (hs : s.Wf) : (s.intersect t).Wf :=
  ⟨lt32_and_left _ hs.1, lt32_and_left _ hs.2⟩

theorem Wf_with {s : SquareSet} (j : Nat) (hs : s.Wf) (hj : j < 64) : (s.with' j).Wf := by
  have hb : ∀ k, k < 32 → (1 <<< k : Nat) < 4294967296 := by
    intro k hk
    rw [Nat.one_shiftLeft]
    calc (2 : Nat) ^ k ≤ 2 ^ 31 := Nat.pow_le_pow_right (by norm_num) (by omega)
    _ < 4294967296 := by norm_num
  unfold SquareSet.with'
  split
  · next h32 => exact ⟨hs.1, lt32_or hs.2 (hb _ (by omega))⟩
  · next h32 => exact ⟨lt32_or hs.1 (hb _ (by omega)), hs.2⟩

theorem Wf_without {s : SquareSet} (j : Nat) (hs : s.Wf) : (s.without j).Wf := by
  unfold SquareSet.without
  split
  · exact ⟨hs.1, lt32_and_left _ hs.2⟩
  · exact ⟨lt32_and_left _ hs.1, hs.2⟩

theorem colorSet_setColorSet (b : Board) (c c2 : Color) (s : SquareSet) :
    (b.setColorSet c s).colorSet c2 = if c2 = c then s else b.colorSet c2 := by
  cases c <;> cases c2 <;> simp [Board.setColorSet, Board.colorSet]

theorem roleSet_setColorSet (b : Board) (c : Color) (s : SquareSet) (r : Role) :
    (b.setColorSet c s).roleSet r = b.roleSet r := by
  cases c <;> cases r <;> rfl

theorem occupied_setColorSet (b : Board) (c : Color) (s : SquareSet) :
    (b.setColorSet c s).occupied = b.occupied := by
  cases c <;> rfl

theorem roleSet_setRoleSet (b : Board) (r r2 : Role) (s : SquareSet) :
    (b.setRoleSet r s).roleSet r2 = if r2 = r then s else b.roleSet r2 := by
  cases r <;> cases r2 <;> simp [Board.setRoleSet, Board.roleSet]

theorem colorSet_setRoleSet (b : Board) (r : Role) (s : SquareSet) (c : Color) :
    (b.setRoleSet r s).colorSet c = b.colorSet c := by
  cases r <;> cases c <;> rfl

theorem occupied_setRoleSet (b : Board) (r : Role) (s : SquareSet) :
    (b.setRoleSet r s).occupied = b.occupied := by
  cases r <;> rfl

theorem colorSet_withOccupied (b : Board) (o : SquareSet) (c : Color) :
    ({ b with occupied := o } : Board).colorSet c = b.colorSet c := by
  cases c <;> rfl

theorem roleSet_withOccupied (b : Board) (o : SquareSet) (r : Role) :
    ({ b with occupied := o } : Board).roleSet r = b.roleSet r := by
  cases r <;> rfl

theorem color_mem_COLORS (c : Color) : c ∈ COLORS := by
  cases c <;> simp [COLORS]

theorem role_mem_ROLES (r : Role) : r ∈ ROLES := by
  cases r <;> simp [ROLES]

theorem getColor_some (b : Board) (sq : Nat) (c : Color) (h : b.getColor sq = some c) :
    (b.colorSet c).has sq = true := by
  unfold Board.getColor at h
  split at h
  · cases h
    assumption
  · split at h
    · cases h
      assumption
    · cases h

theorem getColor_none (b : Board) (sq : Nat) (h : b.getColor sq = none) :
    ∀ c, (b.colorSet c).has sq = false := by
  unfold Board.getColor at h
  split at h
  · cases h
  · split at h
    · cases h
    · intro c
      cases c <;> simp [Board.colorSet] <;> simp_all

theorem getRole_some (b : Board) (sq : Nat) (r : Role) (h : b.getRole sq = some r) :
    (b.roleSet r).has sq = true := by
  unfold Board.getRole at h
  simpa using List.find?_some h

theorem getRole_none (b : Board) (sq : Nat) (h : b.getRole sq = none) :
    ∀ r, (b.roleSet r).has sq = false := by
  unfold Board.getRole at h
  rw [List.find?_eq_none] at h
  intro r
  simpa using h r (role_mem_ROLES r)

theorem get_eq_some (b : Board) (sq : Nat) (p : Piece) (h : b.get sq = some p) :
    (b.colorSet p.color).has sq = true ∧ (b.roleSet p.role).has sq = true := by
  unfold Board.get at h
  cases hc : b.getColor sq with
  | none => rw [hc] at h; cases h
  | some c =>
    rw [hc] at h
    cases hr : b.getRole sq with
    | none => rw [hr] at h; cases h
    | some r =>
      rw [hr] at h
      cases h
      exact ⟨getColor_some b sq c hc, getRole_some b sq r hr⟩

theorem take_components (b : Board) (sq : Nat) (p : Piece) (h : b.get sq = some p) :
    (b.take sq).2 = some p ∧
    (b.take sq).1.occupied = b.occupied.without sq ∧
    (∀ c, (b.take sq).1.colorSet c =
        if c = p.color then (b.colorSet p.color).without sq else b.colorSet c) ∧
    (∀ r, (b.take sq).1.roleSet r =
        if r = p.role then (b.roleSet p.role).without sq else b.roleSet r) := by
  unfold Board.take
  rw [h]
  obtain ⟨pc, pr⟩ := p
  refine ⟨rfl, rfl, ?_, ?_⟩
  · intro c
    cases pc <;> cases pr <;> cases c <;> rfl
  · intro r
    cases pc <;> cases pr <;> cases r <;> rfl

theorem set_components (b : Board) (sq : Nat) (p : Piece) :
    (b.set sq p).2 = (b.take sq).2 ∧
    (b.set sq p).1.occupied = (b.take sq).1.occupied.with' sq ∧
    (∀ c, (b.set sq p).1.colorSet c =
        if c = p.color then ((b.take sq).1.colorSet p.color).with' sq
        else (b.take sq).1.colorSet c) ∧
    (∀ r, (b.set sq p).1.roleSet r =
        if r = p.role then ((b.take sq).1.roleSet p.role).with' sq
        else (b.take sq).1.roleSet r) := by
  unfold Board.set
  obtain ⟨pc, pr⟩ := p
  refine ⟨rfl, rfl, ?_, ?_⟩
  · intro c
    cases pc <;> cases pr <;> cases c <;> rfl
  · intro r
    cases pc <;> cases pr <;> cases r <;> rfl

theorem take_id_of_none (b : Board) (sq : Nat) (h : b.get sq = none) :
    b.take sq = (b, none) := by
  unfold Board.take
  rw [h]

theorem inv_pointwise (b : Board) (hinv : b.Inv) :
    (∀ i, b.occupied.has i = ((b.colorSet .white).has i || (b.colorSet .black).has i)) ∧
    (∀ i, b.occupied.has i =
      (((((((b.roleSet .pawn).has i || (b.roleSet .promotedpawn).has i) ||
        (b.roleSet .knight).has i) || (b.roleSet .bishop).has i) ||
        (b.roleSet .rook).has i) || (b.roleSet .queen).has i) ||
        (b.roleSet .king).has i)) ∧
    (∀ i, ((b.colorSet .white).has i && (b.colorSet .black).has i) = false) ∧
    (∀ r1 r2, r1 ≠ r2 →
      ∀ i, ((b.roleSet r1).has i && (b.roleSet r2).has i) = false) := by
  obtain ⟨hwf, hoc, hor, hcd, hrd, hex⟩ := hinv
  refine ⟨?_, ?_, ?_, ?_⟩
  · intro i
    rw [hoc, has_union]
  · intro i
    rw [hor]
    simp only [has_union]
  · intro i
    rw [← has_intersect, hcd, has_empty]
  · intro r1 r2 hne i
    rw [← has_intersect, hrd r1 (role_mem_ROLES r1) r2 (role_mem_ROLES r2) hne, has_empty]

theorem take_inv (b : Board) (sq : Nat) (hsq : sq < 64) (hinv : b.Inv) :
    (b.take sq).1.Inv := by
  obtain ⟨hOC, hOR, hCD, hRD⟩ := inv_pointwise b hinv
  obtain ⟨⟨hwo, hwc, hwr⟩, hoc, hor, hcd, hrd, hex⟩ := hinv
  have hwc' : ∀ c, (b.colorSet c).Wf := fun c => hwc c (color_mem_COLORS c)
  have hwr' : ∀ r, (b.roleSet r).Wf := fun r => hwr r (role_mem_ROLES r)
  cases hget : b.get sq with
  | none =>
    rw [take_id_of_none b sq hget]
    exact ⟨⟨hwo, hwc, hwr⟩, hoc, hor, hcd, hrd, hex⟩
  | some p =>
    obtain ⟨ht2, hto, htc, htr⟩ := take_components b sq p hget
    obtain ⟨hpc, hpr⟩ := get_eq_some b sq p hget
    have hcol_other : ∀ c, c ≠ p.color → (b.colorSet c).has sq = false := by
      intro c hne
      cases hfc : (b.colorSet c).has sq
      · rfl
      · exfalso
        have hcdsq := hCD sq
        cases c <;> cases hpcc : p.color <;> rw [hpcc] at hpc hne <;> simp_all
    have hrole_other : ∀ r, r ≠ p.role → (b.roleSet r).has sq = false := by
      intro r hne
      cases hfr : (b.roleSet r).has sq
      · rfl
      · have hfalse := hRD r p.role hne sq
        rw [hfr, hpr] at hfalse
        cases hfalse
    -- uniform pointwise description of the taken board
    have hc' : ∀ c i, i < 64 → (((b.take sq).1.colorSet c).has i =
        (!decide (i = sq) && (b.colorSet c).has i)) := by
      intro c i hi
      rw [htc c]
      split
      · next heq =>
        subst heq
        rw [has_without _ _ _ hi hsq]
      · next hne =>
        by_cases hisq : i = sq
        · subst hisq
          rw [hcol_other c hne]
          simp
        · simp [hisq]
    have hr' : ∀ r i, i < 64 → (((b.take sq).1.roleSet r).has i =
        (!decide (i = sq) && (b.roleSet r).has i)) := by
      intro r i hi
      rw [htr r]
      split
      · next heq =>
        subst heq
        rw [has_without _ _ _ hi hsq]
      · next hne =>
        by_cases hisq : i = sq
        · subst hisq
          rw [hrole_other r hne]
          simp
        · simp [hisq]
    have ho' : ∀ i, i < 64 → ((b.take sq).1.occupied.has i =
        (!decide (i = sq) && b.occupied.has i)) := by
      intro i hi
      rw [hto, has_without _ _ _ hi hsq]
    -- well-formedness of the taken board
    have hwfo1 : (b.take sq).1.occupied.Wf := by
      rw [hto]
      exact Wf_without _ hwo
    have hwfc1 : ∀ c, ((b.take sq).1.colorSet c).Wf := by
      intro c
      rw [htc c]
      split
      · exact Wf_without _ (hwc' _)
      · exact hwc' c
    have hwfr1 : ∀ r, ((b.take sq).1.roleSet r).Wf := by
      intro r
      rw [htr r]
      split
      · exact Wf_without _ (hwr' _)
      · exact hwr' r
    refine ⟨⟨hwfo1, fun c _ => hwfc1 c, fun r _ => hwfr1 r⟩, ?_, ?_, ?_, ?_, ?_⟩
    · -- occupied = white ∪ black
      apply ext_of_has _ _ hwfo1 (Wf_union (hwfc1 _) (hwfc1 _))
      intro i hi
      rw [ho' i hi, has_union, hc' _ i hi, hc' _ i hi, hOC i]
      cases decide (i = sq) <;> cases (b.colorSet .white).has i <;>
        cases (b.colorSet .black).has i <;> rfl
    · -- occupied = union of the role sets
      apply ext_of_has _ _ hwfo1
        (Wf_union (Wf_union (Wf_union (Wf_union (Wf_union (Wf_union (hwfr1 _) (hwfr1 _))
          (hwfr1 _)) (hwfr1 _)) (hwfr1 _)) (hwfr1 _)) (hwfr1 _))
      intro i hi
      rw [ho' i hi]
      simp only [has_union]
      rw [hr' _ i hi, hr' _ i hi, hr' _ i hi, hr' _ i hi, hr' _ i hi, hr' _ i hi,
        hr' _ i hi, hOR i]
      cases decide (i = sq) <;> cases (b.roleSet .pawn).has i <;>
        cases (b.roleSet .promotedpawn).has i <;> cases (b.roleSet .knight).has i <;>
        cases (b.roleSet .bishop).has i <;> cases (b.roleSet .rook).has i <;>
        cases (b.roleSet .queen).has i <;> cases (b.roleSet .king).has i <;> rfl
    · -- the color sets stay disjoint
      apply ext_of_has _ _ (Wf_intersect (hwfc1 _)) Wf_empty
      intro i hi
      rw [has_intersect, has_empty, hc' _ i hi, hc' _ i hi]
      cases hd : decide (i = sq)
      · simp only [Bool.not_false, Bool.true_and]
        exact hCD i
      · simp
    · -- the role sets stay pairwise disjoint
      intro r1 _ r2 _ hne
      apply ext_of_has _ _ (Wf_intersect (hwfr1 _)) Wf_empty
      intro i hi
      rw [has_intersect, has_empty, hr' _ i hi, hr' _ i hi]
      cases hd : decide (i = sq)
      · simp only [Bool.not_false, Bool.true_and]
        exact hRD r1 r2 hne i
      · simp
    · -- occupied squares still lie in exactly one color and role set
      intro i hi hocc
      rw [ho' i hi] at hocc
      by_cases hisq : i = sq
      · rw [hisq] at hocc
        simp at hocc
      · have hocc' : b.occupied.has i = true := by
          revert hocc
          simp [hisq]
        have hfc : (COLORS.filter fun c => (((b.take sq).1.colorSet c).has i)) =
            COLORS.filter fun c => ((b.colorSet c).has i) := by
          apply List.filter_congr
          intro c _
          rw [hc' c i hi]
          simp [hisq]
        have hfr : (ROLES.filter fun r => (((b.take sq).1.roleSet r).has i)) =
            ROLES.filter fun r => ((b.roleSet r).has i) := by
          apply List.filter_congr
          intro r _
          rw [hr' r i hi]
          simp [hisq]
        rw [hfc, hfr]
        exact hex i hi hocc'

theorem take_get (b : Board) (sq : Nat) : (b.take sq).2 = b.get sq := by
  unfold Board.take
  cases h : b.get sq <;> simp

theorem take_clears (b : Board) (sq : Nat) (hsq : sq < 64) (hinv : b.Inv) :
    (b.take sq).1.occupied.has sq = false ∧
    (∀ c, ((b.take sq).1.colorSet c).has sq = false) ∧
    (∀ r, ((b.take sq).1.roleSet r).has sq = false) := by
  obtain ⟨hOC, hOR, hCD, hRD⟩ := inv_pointwise b hinv
  cases hget : b.get sq with
  | some p =>
    obtain ⟨ht2, hto, htc, htr⟩ := take_components b sq p hget
    obtain ⟨hpc, hpr⟩ := get_eq_some b sq p hget
    have hcol_other : ∀ c, c ≠ p.color → (b.colorSet c).has sq = false := by
      intro c hne
      cases hfc : (b.colorSet c).has sq
      · rfl
      · exfalso
        have hcdsq := hCD sq
        cases c <;> cases hpcc : p.color <;> rw [hpcc] at hpc hne <;> simp_all
    have hrole_other : ∀ r, r ≠ p.role → (b.roleSet r).has sq = false := by
      intro r hne
      cases hfr : (b.roleSet r).has sq
      · rfl
      · have hfalse := hRD r p.role hne sq
        rw [hfr, hpr] at hfalse
        cases hfalse
    refine ⟨?_, ?_, ?_⟩
    · rw [hto, has_without _ _ _ hsq hsq]
      simp
    · intro c
      rw [htc c]
      split
      · next heq =>
        subst heq
        rw [has_without _ _ _ hsq hsq]
        simp
      · next hne => exact hcol_other c hne
    · intro r
      rw [htr r]
      split
      · next heq =>
        subst heq
        rw [has_without _ _ _ hsq hsq]
        simp
      · next hne => exact hrole_other r hne
  | none =>
    rw [take_id_of_none b sq hget]
    unfold Board.get at hget
    cases hc : b.getColor sq with
    | none =>
      have hcols := getColor_none b sq hc
      have hocc : b.occupied.has sq = false := by
        rw [hOC, hcols .white, hcols .black]
        rfl
      have h7 := hOR sq
      rw [hocc] at h7
      have h7' := h7.symm
      simp only [Bool.or_eq_false_iff] at h7'
      obtain ⟨⟨⟨⟨⟨⟨hr1, hr2⟩, hr3⟩, hr4⟩, hr5⟩, hr6⟩, hr7⟩ := h7'
      have hrs : ∀ r, (b.roleSet r).has sq = false := by
        intro r
        cases r
        exacts [hr1, hr2, hr3, hr4, hr5, hr6, hr7]
      exact ⟨hocc, hcols, hrs⟩
    | some c =>
      rw [hc] at hget
      cases hr : b.getRole sq with
      | some r =>
        rw [hr] at hget
        cases hget
      | none =>
        exfalso
        have hcol := getColor_some b sq c hc
        have hrs := getRole_none b sq hr
        have h7 := hOR sq
        have hON := hOC sq
        rw [hrs .pawn, hrs .promotedpawn, hrs .knight, hrs .bishop, hrs .rook,
          hrs .queen, hrs .king] at h7
        simp at h7
        rw [h7] at hON
        cases c <;> rw [hcol] at hON <;> simp at hON

theorem set_inv (b : Board) (sq : Nat) (piece : Piece) (hsq : sq < 64) (hinv : b.Inv) :
    (b.set sq piece).1.Inv := by
  have hinv1 := take_inv b sq hsq hinv
  obtain ⟨hcl_occ, hcl_c, hcl_r⟩ := take_clears b sq hsq hinv
  obtain ⟨hOC1, hOR1, hCD1, hRD1⟩ := inv_pointwise _ hinv1
  obtain ⟨⟨hwo1, hwc1, hwr1⟩, hoc1, hor1, hcd1, hrd1, hex1⟩ := hinv1
  obtain ⟨hs2, hso, hsc, hsr⟩ := set_components b sq piece
  have hwc1' : ∀ c, (((b.take sq).1).colorSet c).Wf := fun c => hwc1 c (color_mem_COLORS c)
  have hwr1' : ∀ r, (((b.take sq).1).roleSet r).Wf := fun r => hwr1 r (role_mem_ROLES r)
  have hc' : ∀ c i, i < 64 → (((b.set sq piece).1.colorSet c).has i =
      ((decide (i = sq) && decide (c = piece.color)) ||
        (((b.take sq).1).colorSet c).has i)) := by
    intro c i hi
    rw [hsc c]
    split
    · next heq =>
      subst heq
      rw [has_with _ _ _ hi hsq]
      simp
    · next hne => simp [hne]
  have hr' : ∀ r i, i < 64 → (((b.set sq piece).1.roleSet r).has i =
      ((decide (i = sq) && decide (r = piece.role)) ||
        (((b.take sq).1).roleSet r).has i)) := by
    intro r i hi
    rw [hsr r]
    split
    · next heq =>
      subst heq
      rw [has_with _ _ _ hi hsq]
      simp
    · next hne => simp [hne]
  have ho' : ∀ i, i < 64 → ((b.set sq piece).1.occupied.has i =
      (decide (i = sq) || ((b.take sq).1).occupied.has i)) := by
    intro i hi
    rw [hso, has_with _ _ _ hi hsq]
  have hwfo2 : (b.set sq piece).1.occupied.Wf := by
    rw [hso]
    exact Wf_with _ hwo1 hsq
  have hwfc2 : ∀ c, ((b.set sq piece).1.colorSet c).Wf := by
    intro c
    rw [hsc c]
    split
    · exact Wf_with _ (hwc1' _) hsq
    · exact hwc1' c
  have hwfr2 : ∀ r, ((b.set sq piece).1.roleSet r).Wf := by
    intro r
    rw [hsr r]
    split
    · exact Wf_with _ (hwr1' _) hsq
    · exact hwr1' r
  refine ⟨⟨hwfo2, fun c _ => hwfc2 c, fun r _ => hwfr2 r⟩, ?_, ?_, ?_, ?_, ?_⟩
  · apply ext_of_has _ _ hwfo2 (Wf_union (hwfc2 _) (hwfc2 _))
    intro i hi
    rw [ho' i hi, has_union, hc' _ i hi, hc' _ i hi, hOC1 i]
    cases hd : decide (i = sq)
    · simp
    · cases hpcc : piece.color <;> simp [hpcc]
  · apply ext_of_has _ _ hwfo2
      (Wf_union (Wf_union (Wf_union (Wf_union (Wf_union (Wf_union (hwfr2 _) (hwfr2 _))
        (hwfr2 _)) (hwfr2 _)) (hwfr2 _)) (hwfr2 _)) (hwfr2 _))
    intro i hi
    rw [ho' i hi]
    simp only [has_union]
    rw [hr' _ i hi, hr' _ i hi, hr' _ i hi, hr' _ i hi, hr' _ i hi, hr' _ i hi,
      hr' _ i hi, hOR1 i]
    cases hd : decide (i = sq)
    · simp
    · cases hprr : piece.role <;> simp [hprr]
  · apply ext_of_has _ _ (Wf_intersect (hwfc2 _)) Wf_empty
    intro i hi
    rw [has_intersect, has_empty, hc' _ i hi, hc' _ i hi]
    cases hd : decide (i = sq)
    · simp only [hd, Bool.false_and, Bool.false_or]
      exact hCD1 i
    · have hi' : i = sq := of_decide_eq_true hd
      subst hi'
      rw [hcl_c .white, hcl_c .black]
      cases hpcc : piece.color <;> simp [hpcc]
  · intro r1 _ r2 _ hne
    apply ext_of_has _ _ (Wf_intersect (hwfr2 _)) Wf_empty
    intro i hi
    rw [has_intersect, has_empty, hr' _ i hi, hr' _ i hi]
    cases hd : decide (i = sq)
    · simp only [hd, Bool.false_and, Bool.false_or]
      exact hRD1 r1 r2 hne i
    · have hi' : i = sq := of_decide_eq_true hd
      subst hi'
      rw [hcl_r r1, hcl_r r2]
      by_cases h1 : r1 = piece.role <;> by_cases h2 : r2 = piece.role
      · exact absurd (h1.trans h2.symm) hne
      · simp [h1, h2]
      · simp [h1, h2]
      · simp [h1, h2]
  · intro i hi hocc
    by_cases hisq : i = sq
    · subst hisq
      have hfc : (COLORS.filter fun c => (((b.set i piece).1.colorSet c).has i)) =
          COLORS.filter fun c => decide (c = piece.color) := by
        apply List.filter_congr
        intro c _
        rw [hc' c i hi, hcl_c c]
        simp
      have hfr : (ROLES.filter fun r => (((b.set i piece).1.roleSet r).has i)) =
          ROLES.filter fun r => decide (r = piece.role) := by
        apply List.filter_congr
        intro r _
        rw [hr' r i hi, hcl_r r]
        simp
      rw [hfc, hfr]
      constructor
      · cases hpcc : piece.color <;> simp [COLORS, hpcc]
      · cases hprr : piece.role <;> simp [ROLES, hprr]
    · have hocc1 : ((b.take sq).1).occupied.has i = true := by
        rw [ho' i hi] at hocc
        revert hocc
        simp [hisq]
      have hfc : (COLORS.filter fun c => (((b.set sq piece).1.colorSet c).has i)) =
          COLORS.filter fun c => ((((b.take sq).1).colorSet c).has i) := by
        apply List.filter_congr
        intro c _
        rw [hc' c i hi]
        simp [hisq]
      have hfr : (ROLES.filter fun r => (((b.set sq piece).1.roleSet r).has i)) =
          ROLES.filter fun r => ((((b.take sq).1).roleSet r).has i) := by
        apply List.filter_congr
        intro r _
        rw [hr' r i hi]
        simp [hisq]
      rw [hfc, hfr]
      exact hex1 i hi hocc1

/-- Claim C9: confirmed.  On any board satisfying the invariant, `take` and
`set` at a board square preserve the invariant, and each returns the piece
previously on that square (or none if it was empty). -/
theorem board_take_set_preserve_inv (b : Board) (sq : Nat) (piece : Piece)
    (hsq : sq < 64) (hinv : b.Inv) :
    (b.take sq).1.Inv ∧ (b.take sq).2 = b.get sq ∧
    (b.set sq piece).1.Inv ∧ (b.set sq piece).2 = b.get sq :=
  ⟨take_inv b sq hsq hinv, take_get b sq, set_inv b sq piece hsq hinv,
    (set_components b sq piece).1.trans (take_get b sq)⟩

/-- Witness for C9: the default board satisfies the invariant, and taking
square e2 or setting a white met there preserves it. -/
theorem board_take_set_preserve_inv_witness :
    (12 : Nat) < 64 ∧ Board.default.Inv ∧
    ((Board.default.take 12).1.Inv ∧ (Board.default.take 12).2 = Board.default.get 12 ∧
      (Board.default.set 12 ⟨.white, .queen⟩).1.Inv ∧
      (Board.default.set 12 ⟨.white, .queen⟩).2 = Board.default.get 12) :=
  ⟨by decide, by decide,
    board_take_set_preserve_inv Board.default 12 ⟨.white, .queen⟩ (by decide) (by decide)⟩
